import Mathlib

/-!
Verification development for the interactive session core of a terminal feed
reader (src/src/tui/state.rs, src/src/tui/input.rs, src/src/render.rs,
src/src/db.rs).  The Rust code is embedded shallowly: structs become Lean
structures, methods become functions on an explicit `App` state, the
persistence write becomes an append to a log of saved snapshots, the network
fetch becomes a function parameter returning `Except`, and the external
RFC-3339 timestamp parser (chrono) is abstracted as a parameter
`parsePub : String → Option Int` whose `Int` results stand for timestamps in
chronological order.  Rust `sort_by` is a stable sort consistent with its
comparator, which is modelled by `List.mergeSort` with the boolean relation
`comparator result is not gt`.
-/

/-- FeedItem from src/src/db.rs: one entry of a feed. -/
structure FeedItem where
  title : String
  link : Option String
  published : Option String
deriving DecidableEq

/-- FeedRecord from src/src/db.rs: one subscribed feed. -/
structure FeedRecord where
  title : Option String
  url : String
  items : List FeedItem
deriving DecidableEq

/-- FeedDb from src/src/db.rs: the persisted collection of feeds. -/
structure FeedDb where
  feeds : List FeedRecord
deriving DecidableEq

/-- Focus from src/src/tui/state.rs. -/
inductive Focus where
  | Feeds
  | Items
deriving DecidableEq

/-- Mode from src/src/tui/state.rs. -/
inductive Mode where
  | Normal
  | AddUrl
deriving DecidableEq

/-- The key codes the handlers in src/src/tui/input.rs match on. -/
inductive KeyCode where
  | char (c : Char)
  | enter
  | esc
  | backspace
  | tab
  | left
  | right
  | up
  | down
  | pageUp
  | pageDown
  | other
deriving DecidableEq

/-- A key event: code plus the control modifier flag used by the handlers. -/
structure KeyEvent where
  code : KeyCode
  ctrl : Bool
deriving DecidableEq

/-- App from src/src/tui/state.rs.  The ratatui ListState fields are reduced
to their `selected` component (an optional index); the db path and the file
system are replaced by `saveLog`, the list of snapshots passed to save_db. -/
structure App where
  db : FeedDb
  feedSel : Option Nat
  itemSel : Option Nat
  focus : Focus
  mode : Mode
  input : String
  status : String
  saveLog : List FeedDb
deriving DecidableEq

/-- DisplayItem from src/src/tui/state.rs, with the chrono timestamp key
abstracted to an integer. -/
structure DisplayItem where
  title : String
  feed_title : String
  published : Option String
  published_key : Option Int
  link : Option String
deriving DecidableEq

/-- PAGE_JUMP from src/src/tui/state.rs. -/
def PAGE_JUMP : Int := 5

/-- Model of Rust str::trim used on the input buffer: drop leading and
trailing whitespace characters. -/
def trim (s : String) : String :=
  ⟨((s.data.dropWhile Char.isWhitespace).reverse.dropWhile Char.isWhitespace).reverse⟩

/-- Model of Rust String::pop on the input buffer: remove the last
character. -/
def strPop (s : String) : String :=
  ⟨s.data.dropLast⟩

/-- Model of save_db from src/src/db.rs: record the snapshot that would be
written to disk. -/
def save_db (a : App) : App :=
  { a with saveLog := a.saveLog ++ [a.db] }

/-- App::selected_feed from src/src/tui/state.rs. -/
def selected_feed (a : App) : Option FeedRecord :=
  a.feedSel.bind (fun idx => if idx = 0 then none else a.db.feeds[idx - 1]?)

/-- clamp_index from src/src/tui/state.rs.  Rust saturating_sub is Nat
subtraction. -/
def clamp_index (index : Int) (len : Nat) : Nat :=
  let last : Int := ((len - 1 : Nat) : Int)
  if index < 0 then 0
  else if index > last then last.toNat
  else index.toNat

/-- Model of Ord::cmp on chrono timestamps: the usual order on the integer
keys produced by the abstracted parser. -/
def cmpInt (a b : Int) : Ordering :=
  if a < b then Ordering.lt
  else if a = b then Ordering.eq
  else Ordering.gt

/-- The DisplayItem construction shared by both branches of
App::current_items. -/
def mkDisplay (parsePub : String → Option Int) (feedTitle : Option String)
    (item : FeedItem) : DisplayItem :=
  { title := item.title
    feed_title := feedTitle.getD ("Untitled")
    published := item.published
    published_key := item.published.bind parsePub
    link := item.link }

/-- compare_published_desc from src/src/tui/state.rs: on two valid keys it is
`right.cmp(left)` (descending), a valid key precedes a missing one, two
missing keys compare equal. -/
def compare_published_desc (a b : DisplayItem) : Ordering :=
  match a.published_key, b.published_key with
  | some l, some r => cmpInt r l
  | some _, none => Ordering.lt
  | none, some _ => Ordering.gt
  | none, none => Ordering.eq

/-- The boolean order backing the stable sort: Rust Vec::sort_by keeps `a`
before `b` whenever the comparator does not answer Greater. -/
def sortLe (a b : DisplayItem) : Bool :=
  decide (compare_published_desc a b ≠ Ordering.gt)

/-- The flat_map part of the All-feeds branch of App::current_items: every
entry of every feed, tagged with its source feed title. -/
def flattenTagged (parsePub : String → Option Int) (db : FeedDb) : List DisplayItem :=
  db.feeds.flatMap (fun feed => feed.items.map (mkDisplay parsePub feed.title))

/-- App::current_items from src/src/tui/state.rs. -/
def current_items (parsePub : String → Option Int) (a : App) : List DisplayItem :=
  match selected_feed a with
  | some feed => feed.items.map (mkDisplay parsePub feed.title)
  | none => (flattenTagged parsePub a.db).mergeSort sortLe

/-- App::current_items_count from src/src/tui/state.rs. -/
def current_items_count (a : App) : Nat :=
  match selected_feed a with
  | some feed => feed.items.length
  | none => (a.db.feeds.map (fun feed => feed.items.length)).sum

/-- App::ensure_item_selection from src/src/tui/state.rs. -/
def ensure_item_selection (a : App) (len : Nat) : App :=
  if len = 0 then { a with itemSel := none }
  else { a with itemSel := some (min (a.itemSel.getD 0) (len - 1)) }

/-- App::move_feed from src/src/tui/state.rs. -/
def move_feed (a : App) (delta : Int) : App :=
  let count := a.db.feeds.length + 1
  let next := clamp_index (((a.feedSel.getD 0 : Nat) : Int) + delta) count
  let a1 := { a with feedSel := some next }
  ensure_item_selection a1 (current_items_count a1)

/-- App::move_item from src/src/tui/state.rs. -/
def move_item (a : App) (delta : Int) : App :=
  let count := current_items_count a
  if count = 0 then { a with itemSel := none }
  else
    let next := clamp_index (((a.itemSel.getD 0 : Nat) : Int) + delta) count
    { a with itemSel := some next }

/-- App::move_selection from src/src/tui/state.rs. -/
def move_selection (a : App) (delta : Int) : App :=
  match a.focus with
  | Focus.Feeds => move_feed a delta
  | Focus.Items => move_item a delta

/-- Model of Iterator::position used in App::upsert_feed. -/
def position {α : Type} (p : α → Bool) : List α → Option Nat
  | [] => none
  | a :: l => if p a then some 0 else (position p l).map (· + 1)

/-- The mutation part of App::upsert_feed: replace title and items of the
first feed with the given url, or append a new feed. -/
def upsertFeeds (feeds : List FeedRecord) (url : String) (title : Option String)
    (items : List FeedItem) : List FeedRecord :=
  match feeds with
  | [] => [{ title := title, url := url, items := items }]
  | f :: rest =>
    if f.url = url then { f with title := title, items := items } :: rest
    else f :: upsertFeeds rest url title items

/-- App::upsert_feed from src/src/tui/state.rs: mutate the feed list, select
the affected feed, re-validate the item selection against its item count,
then persist. -/
def upsert_feed (a : App) (url : String) (title : Option String)
    (items : List FeedItem) : App :=
  let feeds := upsertFeeds a.db.feeds url title items
  let a1 := { a with db := ⟨feeds⟩ }
  let a2 :=
    match position (fun f => f.url == url) feeds with
    | some index =>
      ensure_item_selection { a1 with feedSel := some (index + 1) }
        (((feeds[index]?).map (fun f => f.items.length)).getD 0)
    | none => a1
  save_db a2

/-- The delete branch of handle_normal in src/src/tui/input.rs. -/
def delete_selected (a : App) : App :=
  match a.feedSel with
  | none => a
  | some index =>
    if index = 0 then { a with status := "Select a feed to delete." }
    else
      match a.db.feeds[index - 1]? with
      | none => a
      | some feed =>
        let feeds := a.db.feeds.eraseIdx (index - 1)
        let a1 := { a with db := ⟨feeds⟩ }
        let a2 :=
          if feeds.isEmpty then { a1 with feedSel := some 0, itemSel := none }
          else { a1 with feedSel := some (min ((index - 1) + 1) feeds.length) }
        { save_db a2 with status := "Removed " ++ feed.url }

/-- The result type of the external fetch_feed_items operation from
src/src/feed.rs, abstracted as data. -/
abbrev FetchResult := Except String (Option String × List FeedItem)

/-- The refresh branch of handle_normal in src/src/tui/input.rs. -/
def do_refresh (fetch : String → FetchResult) (a : App) : App :=
  match selected_feed a with
  | some feed =>
    match fetch feed.url with
    | Except.ok (title, items) =>
      { upsert_feed a feed.url title items with status := "Refreshed " ++ feed.url }
    | Except.error err => { a with status := "Error: " ++ err }
  | none => { a with status := "Select a feed to refresh." }

/-- handle_add_url from src/src/tui/input.rs.  The boolean result is the
quit flag returned to the event loop. -/
def handle_add_url (fetch : String → FetchResult) (a : App) (key : KeyEvent) :
    App × Bool :=
  match key.code with
  | KeyCode.esc =>
    ({ a with mode := Mode.Normal, input := "", status := "Add cancelled." }, false)
  | KeyCode.enter =>
    let url := trim a.input
    let a1 := { a with input := "", mode := Mode.Normal }
    if url.isEmpty then ({ a1 with status := "URL cannot be empty." }, false)
    else
      match fetch url with
      | Except.ok (title, items) =>
        ({ upsert_feed a1 url title items with status := "Added " ++ url }, false)
      | Except.error err => ({ a1 with status := "Error: " ++ err }, false)
  | KeyCode.backspace => ({ a with input := strPop a.input }, false)
  | KeyCode.char ch =>
    if key.ctrl then (a, false) else ({ a with input := a.input.push ch }, false)
  | _ => (a, false)

/-- handle_normal from src/src/tui/input.rs. -/
def handle_normal (fetch : String → FetchResult) (a : App) (key : KeyEvent) :
    App × Bool :=
  match key.code with
  | KeyCode.char 'q' => (a, true)
  | KeyCode.esc => (a, true)
  | KeyCode.char 'a' =>
    ({ a with mode := Mode.AddUrl, input := "", status := "Enter feed URL." }, false)
  | KeyCode.char 'r' => (do_refresh fetch a, false)
  | KeyCode.char 'd' => (delete_selected a, false)
  | KeyCode.tab => ({ a with focus := Focus.Items }, false)
  | KeyCode.right => ({ a with focus := Focus.Items }, false)
  | KeyCode.left => ({ a with focus := Focus.Feeds }, false)
  | KeyCode.up => (move_selection a (-1), false)
  | KeyCode.down => (move_selection a 1, false)
  | KeyCode.pageUp => (move_selection a (-PAGE_JUMP), false)
  | KeyCode.pageDown => (move_selection a PAGE_JUMP, false)
  | KeyCode.char 'k' => (move_selection a (-1), false)
  | KeyCode.char 'j' => (move_selection a 1, false)
  | _ => (a, false)

/-- handle_key from src/src/tui/input.rs. -/
def handle_key (fetch : String → FetchResult) (a : App) (key : KeyEvent) :
    App × Bool :=
  match a.mode with
  | Mode.AddUrl => handle_add_url fetch a key
  | Mode.Normal => handle_normal fetch a key

/-- The per-entry line format of render_items from src/src/render.rs: absent
fields default to the empty string and empty segments are dropped. -/
def render_line (item : FeedItem) : String :=
  let link := item.link.getD ("")
  let published := item.published.getD ("")
  if published.isEmpty && link.isEmpty then "- " ++ item.title
  else if published.isEmpty then "- " ++ item.title ++ " | " ++ link
  else if link.isEmpty then "- " ++ item.title ++ " | " ++ published
  else "- " ++ item.title ++ " | " ++ published ++ " | " ++ link

/-- render_items from src/src/render.rs, as the list of printed lines. -/
def render_items (label : String) (items : List FeedItem) : List String :=
  ("Feed: " ++ label) :: items.map render_line

/-- The literal reading of the spec sentence for the render line: a segment
is appended exactly when the corresponding field is present. -/
def spec_render_line (item : FeedItem) : String :=
  "- " ++ item.title
    ++ (match item.published with
        | some p => " | " ++ p
        | none => "")
    ++ (match item.link with
        | some l => " | " ++ l
        | none => "")

/-- One optional segment of the amended render-line format: appended exactly
when the field is present and non-empty. -/
def renderSeg (field : Option String) : String :=
  match field with
  | none => ""
  | some s => if s.isEmpty then "" else " | " ++ s

/-- The upsert operation restricted to the persisted collection. -/
def upsertDb (db : FeedDb) (url : String) (title : Option String)
    (items : List FeedItem) : FeedDb :=
  ⟨upsertFeeds db.feeds url title items⟩

/-- The remove operation restricted to the persisted collection. -/
def removeDb (db : FeedDb) (i : Nat) : FeedDb :=
  ⟨db.feeds.eraseIdx i⟩

/-- One edit step on the collection: an upsert (add or refresh) or a feed
removal (delete). -/
inductive EditStep : FeedDb → FeedDb → Prop where
  | upsert (db : FeedDb) (url : String) (title : Option String)
      (items : List FeedItem) : EditStep db (upsertDb db url title items)
  | remove (db : FeedDb) (i : Nat) : EditStep db (removeDb db i)

/-- Reachability of a collection through any sequence of edit steps. -/
def Reachable : FeedDb → FeedDb → Prop :=
  Relation.ReflTransGen EditStep

/-- The url-uniqueness invariant: at most one feed per distinct url. -/
def urlUnique (db : FeedDb) : Prop :=
  db.feeds.Pairwise (fun f g => f.url ≠ g.url)

/-- A collection that load_db from src/src/db.rs can produce.  load_db
deserializes any input conforming to the schema and performs no
url-uniqueness validation, so every FeedDb value is a possible result. -/
def Loadable (_db : FeedDb) : Prop := True

/-- The item-selection validity invariant: no selection when the current item
view is empty, otherwise a selected index below the view length. -/
def itemSelOk (a : App) : Bool :=
  match a.itemSel with
  | none => current_items_count a == 0
  | some i => decide (i < current_items_count a)

/-- The order the spec requires between an entry and any entry displayed
after it in the All-feeds view: on two valid timestamps the earlier one comes
second, an entry with a valid timestamp never follows one without. -/
def beforeOk (x y : DisplayItem) : Prop :=
  match x.published_key, y.published_key with
  | some kx, some ky => ky ≤ kx
  | some _, none => True
  | none, some _ => False
  | none, none => True

/-- The timestamp key of a display item with missing dates sent to bottom,
matching the order the comparator induces. -/
def keyBot (x : DisplayItem) : WithBot Int :=
  match x.published_key with
  | some k => (k : WithBot Int)
  | none => ⊥

/-- A collection holding two feeds with the same url, as load_db accepts. -/
def dupDb : FeedDb :=
  ⟨[{ title := none, url := "http://a", items := [] },
    { title := none, url := "http://a", items := [] }]⟩

/-- Fixture: an entry with no optional fields. -/
def itemPlain (t : String) : FeedItem :=
  { title := t, link := none, published := none }

/-- Fixture: a feed with two entries. -/
def feedA : FeedRecord :=
  { title := some ("A"), url := "http://a", items := [itemPlain ("a1"), itemPlain ("a2")] }

/-- Fixture: a feed with one entry. -/
def feedB : FeedRecord :=
  { title := some ("B"), url := "http://b", items := [itemPlain ("b1")] }

/-- Fixture: a fresh session state over an empty collection. -/
def baseApp : App :=
  { db := ⟨[]⟩, feedSel := some 0, itemSel := none, focus := Focus.Feeds,
    mode := Mode.Normal, input := "", status := "", saveLog := [] }

/-- Fixture: a session over the two-feed collection. -/
def appTwoFeeds : App :=
  { baseApp with db := ⟨[feedA, feedB]⟩ }

/-- Fixture: the first feed selected with its second entry selected. -/
def appDeleteCase : App :=
  { appTwoFeeds with feedSel := some 1, itemSel := some 1 }

/-- Fixture: a feed with a valid, an unparseable, and a missing date. -/
def feedC : FeedRecord :=
  { title := some ("C"), url := "http://c",
    items := [{ title := "c1", link := none, published := some ("d2") },
              { title := "c2", link := none, published := some ("bad") }] }

/-- Fixture: a feed with one dated entry. -/
def feedD : FeedRecord :=
  { title := none, url := "http://d",
    items := [{ title := "d1", link := none, published := some ("d1") }] }

/-- Fixture: a timestamp parser that understands the two dates of the
fixtures. -/
def parseFix : String → Option Int :=
  fun s => if s = "d1" then some 1 else if s = "d2" then some 2 else none

/-- Fixture: the All-feeds pseudo-entry selected over the dated feeds. -/
def appAllFeeds : App :=
  { baseApp with db := ⟨[feedC, feedD]⟩ }

/-- Fixture: a fetch operation that always fails. -/
def fetchFail : String → FetchResult :=
  fun _ => Except.error ("boom")

/-- Fixture: the session in AddUrl mode with a padded url typed in. -/
def appAdding : App :=
  { appTwoFeeds with mode := Mode.AddUrl, input := " http://x " }

/-- Fixture: a single-feed collection with that feed and its entry selected. -/
def appOneFeed : App :=
  { baseApp with db := ⟨[feedB]⟩, feedSel := some 1, itemSel := some 0 }

/-- Fixture: the two-feed session with the first real feed selected. -/
def appFeedSel : App :=
  { appTwoFeeds with feedSel := some 1 }

/-- Fixture: the two-feed session focused on the item pane with no item
selected. -/
def appItems : App :=
  { appTwoFeeds with focus := Focus.Items, feedSel := some 1, itemSel := none }

/-- Fixture: the collection built by two upserts from the empty collection. -/
def dbAB : FeedDb :=
  upsertDb (upsertDb ⟨[]⟩ ("http://a") none []) ("http://b") none []

theorem selected_feed_ensure (a : App) (len : Nat) :
    selected_feed (ensure_item_selection a len) = selected_feed a := by
  unfold ensure_item_selection
  split <;> rfl

theorem db_ensure (a : App) (len : Nat) :
    (ensure_item_selection a len).db = a.db := by
  unfold ensure_item_selection
  split <;> rfl

theorem feedSel_ensure (a : App) (len : Nat) :
    (ensure_item_selection a len).feedSel = a.feedSel := by
  unfold ensure_item_selection
  split <;> rfl

theorem count_ensure (a : App) (len : Nat) :
    current_items_count (ensure_item_selection a len) = current_items_count a := by
  unfold current_items_count
  rw [selected_feed_ensure, db_ensure]

theorem clamp_index_le (i : Int) (len : Nat) : clamp_index i len ≤ len - 1 := by
  simp only [clamp_index]
  split_ifs <;> omega

theorem itemSelOk_ensure (a : App) (len : Nat)
    (hlen : current_items_count (ensure_item_selection a len) = len) :
    itemSelOk (ensure_item_selection a len) = true := by
  by_cases h : len = 0
  · subst h
    simp [ensure_item_selection] at hlen ⊢
    simp [itemSelOk, hlen]
  · simp only [ensure_item_selection, if_neg h] at hlen ⊢
    simp only [itemSelOk, hlen]
    simp only [decide_eq_true_eq]
    omega

theorem itemSelOk_ensure_count (a : App) :
    itemSelOk (ensure_item_selection a (current_items_count a)) = true :=
  itemSelOk_ensure a _ (count_ensure a _)

theorem itemSelOk_save (a : App) : itemSelOk (save_db a) = itemSelOk a := rfl

theorem position_some_lt {α : Type} {p : α → Bool} {l : List α} {i : Nat}
    (h : position p l = some i) : i < l.length := by
  induction l generalizing i with
  | nil => simp [position] at h
  | cons a l ih =>
    simp only [position] at h
    split at h
    · cases h
      simp
    · simp only [Option.map_eq_some'] at h
      obtain ⟨j, hj, rfl⟩ := h
      have := ih hj
      simp
      omega

theorem position_upsertFeeds (feeds : List FeedRecord) (url : String)
    (title : Option String) (items : List FeedItem) :
    ∃ j, position (fun f => f.url == url) (upsertFeeds feeds url title items) = some j := by
  induction feeds with
  | nil => exact ⟨0, by simp [upsertFeeds, position]⟩
  | cons f rest ih =>
    by_cases h : f.url = url
    · exact ⟨0, by simp [upsertFeeds, h, position]⟩
    · obtain ⟨j, hj⟩ := ih
      refine ⟨j + 1, ?_⟩
      simp [upsertFeeds, h, position, hj]

theorem upsert_feed_db (a : App) (url : String) (title : Option String)
    (items : List FeedItem) :
    (upsert_feed a url title items).db = ⟨upsertFeeds a.db.feeds url title items⟩ := by
  unfold upsert_feed
  cases hpos : position (fun f => f.url == url) (upsertFeeds a.db.feeds url title items) with
  | none => simp [hpos, save_db]
  | some j => simp [hpos, save_db, db_ensure]

theorem upsertFeeds_idem (feeds : List FeedRecord) (url : String)
    (title : Option String) (items : List FeedItem) :
    upsertFeeds (upsertFeeds feeds url title items) url title items =
      upsertFeeds feeds url title items := by
  induction feeds with
  | nil => simp [upsertFeeds]
  | cons f rest ih =>
    by_cases h : f.url = url
    · simp [upsertFeeds, h]
    · simp [upsertFeeds, h, ih]

theorem upsertFeeds_replace (feeds : List FeedRecord) (url : String)
    (title : Option String) (items : List FeedItem) (j : Nat) (f : FeedRecord)
    (hj : feeds[j]? = some f) (hurl : f.url = url)
    (hmin : ∀ k, k < j → ∀ g, feeds[k]? = some g → g.url ≠ url) :
    upsertFeeds feeds url title items =
      feeds.set j { f with title := title, items := items } := by
  induction feeds generalizing j with
  | nil => simp at hj
  | cons f0 rest ih =>
    cases j with
    | zero =>
      simp only [List.getElem?_cons_zero, Option.some_inj] at hj
      subst hj
      simp [upsertFeeds, hurl]
    | succ j =>
      have h0 : f0.url ≠ url := hmin 0 (Nat.succ_pos j) f0 (by simp)
      simp only [upsertFeeds, if_neg h0, List.set_cons_succ]
      congr 1
      exact ih j (by simpa using hj)
        (fun k hk g hg => hmin (k + 1) (by omega) g (by simpa using hg))

theorem itemSelOk_upsert (a : App) (url : String) (title : Option String)
    (items : List FeedItem) : itemSelOk (upsert_feed a url title items) = true := by
  unfold upsert_feed
  obtain ⟨j, hj⟩ := position_upsertFeeds a.db.feeds url title items
  have hlt := position_some_lt hj
  have hget := List.getElem?_eq_getElem hlt
  simp only [hj, hget, itemSelOk_save]
  apply itemSelOk_ensure
  rw [count_ensure]
  simp [current_items_count, selected_feed, hget]

theorem upsertFeeds_mem_url (feeds : List FeedRecord) (url : String)
    (title : Option String) (items : List FeedItem) (g : FeedRecord)
    (hg : g ∈ upsertFeeds feeds url title items) :
    g.url = url ∨ ∃ f ∈ feeds, g.url = f.url := by
  induction feeds with
  | nil =>
    simp [upsertFeeds] at hg
    subst hg
    left
    rfl
  | cons f rest ih =>
    by_cases h : f.url = url
    · simp only [upsertFeeds, if_pos h, List.mem_cons] at hg
      rcases hg with hg | hg
      · subst hg
        left
        exact h
      · right
        exact ⟨g, List.mem_cons_of_mem f hg, rfl⟩
    · simp only [upsertFeeds, if_neg h, List.mem_cons] at hg
      rcases hg with hg | hg
      · subst hg
        right
        exact ⟨g, List.mem_cons_self g rest, rfl⟩
      · rcases ih hg with h1 | ⟨f2, hf2, he⟩
        · left
          exact h1
        · right
          exact ⟨f2, List.mem_cons_of_mem f hf2, he⟩

theorem upsertFeeds_pairwise (feeds : List FeedRecord) (url : String)
    (title : Option String) (items : List FeedItem)
    (h : feeds.Pairwise (fun f g => f.url ≠ g.url)) :
    (upsertFeeds feeds url title items).Pairwise (fun f g => f.url ≠ g.url) := by
  induction feeds with
  | nil => simp [upsertFeeds]
  | cons f rest ih =>
    rw [List.pairwise_cons] at h
    obtain ⟨hf, hrest⟩ := h
    by_cases hc : f.url = url
    · simp only [upsertFeeds, if_pos hc]
      rw [List.pairwise_cons]
      exact ⟨fun g hg => hf g hg, hrest⟩
    · simp only [upsertFeeds, if_neg hc]
      rw [List.pairwise_cons]
      refine ⟨?_, ih hrest⟩
      intro g hg
      rcases upsertFeeds_mem_url rest url title items g hg with h1 | ⟨f2, hf2, he⟩
      · rw [h1]
        exact hc
      · rw [he]
        exact hf f2 hf2

theorem urlUnique_upsert (db : FeedDb) (url : String) (title : Option String)
    (items : List FeedItem) (h : urlUnique db) :
    urlUnique (upsertDb db url title items) :=
  upsertFeeds_pairwise db.feeds url title items h

theorem urlUnique_remove (db : FeedDb) (i : Nat) (h : urlUnique db) :
    urlUnique (removeDb db i) := by
  unfold urlUnique removeDb at *
  exact List.Pairwise.sublist (List.eraseIdx_sublist db.feeds i) h

theorem sortLe_iff (x y : DisplayItem) : sortLe x y = true ↔ beforeOk x y := by
  unfold sortLe beforeOk compare_published_desc cmpInt
  cases hx : x.published_key <;> cases hy : y.published_key <;> simp
  omega

theorem beforeOk_iff (x y : DisplayItem) : beforeOk x y ↔ keyBot y ≤ keyBot x := by
  unfold beforeOk keyBot
  cases hx : x.published_key <;> cases hy : y.published_key <;> simp

theorem sortLe_total (x y : DisplayItem) : (sortLe x y || sortLe y x) = true := by
  rw [Bool.or_eq_true, sortLe_iff, sortLe_iff, beforeOk_iff, beforeOk_iff]
  exact le_total _ _

theorem sortLe_trans (x y z : DisplayItem) (h1 : sortLe x y = true)
    (h2 : sortLe y z = true) : sortLe x z = true := by
  rw [sortLe_iff, beforeOk_iff] at h1 h2 ⊢
  exact le_trans h2 h1

theorem beforeOk_of_eq_key (x y : DisplayItem) (h : x.published_key = y.published_key) :
    beforeOk x y := by
  unfold beforeOk
  rw [h]
  cases y.published_key <;> simp

theorem empty_isEmpty : ("" : String).isEmpty = true := by decide

/-- C8 counterexample: an entry whose link field is present but empty is
rendered without the link segment, while the spec sentence, read literally,
appends the segment whenever the field is present. -/
theorem C8_counterexample :
    render_line { title := "t", link := some (""), published := none } ≠
      spec_render_line { title := "t", link := some (""), published := none } := by
  decide

/-- C8 (amended): the static render formats the line of every entry as
"- title", extended with the published and link segments exactly when the
corresponding field is present and non-empty, with no stray separator. -/
theorem C8_render_line_segments (item : FeedItem) :
    render_line item =
      "- " ++ item.title ++ renderSeg item.published ++ renderSeg item.link := by
  obtain ⟨t, l, p⟩ := item
  cases l with
  | none =>
    cases p with
    | none => simp [render_line, renderSeg, empty_isEmpty]
    | some ps =>
      by_cases hp : ps.isEmpty
      · have := (String.isEmpty_iff ps).mp hp
        subst this
        simp [render_line, renderSeg, empty_isEmpty]
      · simp [render_line, renderSeg, hp, empty_isEmpty, String.append_assoc]
  | some ls =>
    cases p with
    | none =>
      by_cases hl : ls.isEmpty
      · have := (String.isEmpty_iff ls).mp hl
        subst this
        simp [render_line, renderSeg, empty_isEmpty]
      · simp [render_line, renderSeg, hl, empty_isEmpty, String.append_assoc]
    | some ps =>
      by_cases hp : ps.isEmpty <;> by_cases hl : ls.isEmpty
      · have h1 := (String.isEmpty_iff ps).mp hp
        have h2 := (String.isEmpty_iff ls).mp hl
        subst h1
        subst h2
        simp [render_line, renderSeg, empty_isEmpty]
      · have h1 := (String.isEmpty_iff ps).mp hp
        subst h1
        simp [render_line, renderSeg, hl, empty_isEmpty, String.append_assoc]
      · have h2 := (String.isEmpty_iff ls).mp hl
        subst h2
        simp [render_line, renderSeg, hp, empty_isEmpty, String.append_assoc]
      · simp [render_line, renderSeg, hp, hl, String.append_assoc]

/-- C4: upsert is idempotent on its url, title and items arguments: applying
it twice with identical arguments yields the same collection as applying it
once. -/
theorem C4_upsert_idempotent (a : App) (url : String) (title : Option String)
    (items : List FeedItem) :
    (upsert_feed (upsert_feed a url title items) url title items).db =
      (upsert_feed a url title items).db := by
  rw [upsert_feed_db, upsert_feed_db]
  exact congrArg FeedDb.mk (upsertFeeds_idem a.db.feeds url title items)

theorem clamp_index_spec (i : Int) (len : Nat) :
    (i < 0 → clamp_index i len = 0) ∧
    (i > ((len - 1 : Nat) : Int) → clamp_index i len = len - 1) ∧
    (0 ≤ i → i ≤ ((len - 1 : Nat) : Int) → (clamp_index i len : Int) = i) := by
  simp only [clamp_index]
  refine ⟨?_, ?_, ?_⟩ <;> intros <;> split_ifs <;> omega

/-- C5: a feed-pane moveSelection, for any delta (the unit moves and the
page jumps of magnitude 5 included), yields a feed index in the inclusive
range from 0 to the real feed count, flooring negative results at 0 and
capping overshoots at the count, with no wraparound. -/
theorem C5_feed_move_bounds (a : App) (delta : Int) (hf : a.focus = Focus.Feeds) :
    ∃ n, (move_selection a delta).feedSel = some n ∧
      n ≤ a.db.feeds.length ∧
      ((((a.feedSel.getD 0 : Nat) : Int) + delta) < 0 → n = 0) ∧
      ((((a.feedSel.getD 0 : Nat) : Int) + delta) > (a.db.feeds.length : Int) →
        n = a.db.feeds.length) ∧
      (0 ≤ (((a.feedSel.getD 0 : Nat) : Int) + delta) →
        (((a.feedSel.getD 0 : Nat) : Int) + delta) ≤ (a.db.feeds.length : Int) →
        (n : Int) = ((a.feedSel.getD 0 : Nat) : Int) + delta) := by
  refine ⟨clamp_index (((a.feedSel.getD 0 : Nat) : Int) + delta) (a.db.feeds.length + 1), ?_, ?_, ?_, ?_, ?_⟩
  · simp [move_selection, hf, move_feed, feedSel_ensure]
  · have := clamp_index_le (((a.feedSel.getD 0 : Nat) : Int) + delta) (a.db.feeds.length + 1)
    omega
  · intro h
    exact (clamp_index_spec _ _).1 h
  · intro h
    have h2 := (clamp_index_spec (((a.feedSel.getD 0 : Nat) : Int) + delta) (a.db.feeds.length + 1)).2.1
    simp at h2
    omega
  · intro h1 h2
    have h3 := (clamp_index_spec (((a.feedSel.getD 0 : Nat) : Int) + delta) (a.db.feeds.length + 1)).2.2
    simp at h3
    omega

/-- C10: with the item pane focused, a non-empty item view and no current
item selection, moveSelection treats the current index as 0 and always
establishes a selection, namely the clamp of 0 plus delta to the view
range. -/
theorem C10_item_move_from_none (a : App) (delta : Int) (hf : a.focus = Focus.Items)
    (hc : current_items_count a ≠ 0) (hs : a.itemSel = none) :
    (move_selection a delta).itemSel =
      some (clamp_index ((0 : Int) + delta) (current_items_count a)) ∧
    (move_selection a delta).itemSel ≠ none := by
  have h1 : (move_selection a delta).itemSel =
      some (clamp_index ((0 : Int) + delta) (current_items_count a)) := by
    simp [move_selection, hf, move_item, hc, hs]
  exact ⟨h1, by simp [h1]⟩

/-- C3: deleting the selected real feed removes exactly that feed; if the
collection becomes empty the feed selection resets to the All pseudo-entry
and the item selection is cleared, otherwise the feed index becomes the
minimum of the removed index plus one and the new feed count. -/
theorem C3_delete_selection (a : App) (idx : Nat) (h1 : a.feedSel = some idx)
    (h2 : idx ≠ 0) (h3 : idx - 1 < a.db.feeds.length) :
    (delete_selected a).db.feeds = a.db.feeds.eraseIdx (idx - 1) ∧
    (a.db.feeds.eraseIdx (idx - 1) = [] →
      (delete_selected a).feedSel = some 0 ∧ (delete_selected a).itemSel = none) ∧
    (a.db.feeds.eraseIdx (idx - 1) ≠ [] →
      (delete_selected a).feedSel =
        some (min ((idx - 1) + 1) (a.db.feeds.eraseIdx (idx - 1)).length)) := by
  have hget := List.getElem?_eq_getElem h3
  by_cases he : a.db.feeds.eraseIdx (idx - 1) = []
  · have hie : (a.db.feeds.eraseIdx (idx - 1)).isEmpty = true := by
      simp [List.isEmpty_iff, he]
    simp [delete_selected, h1, h2, hget, hie, save_db, he]
  · have hie : (a.db.feeds.eraseIdx (idx - 1)).isEmpty = false := by
      simp [List.isEmpty_iff, he]
    simp [delete_selected, h1, h2, hget, hie, save_db, he]

/-- C9: when a feed with the given url already exists, upsert replaces the
title and items of the first such feed in place: the feed keeps its index,
the list keeps its length, and every other position is unchanged. -/
theorem C9_upsert_existing (a : App) (url : String) (title : Option String)
    (items : List FeedItem) (j : Nat) (f : FeedRecord)
    (hj : a.db.feeds[j]? = some f) (hurl : f.url = url)
    (hmin : ∀ k, k < j → ∀ g, a.db.feeds[k]? = some g → g.url ≠ url) :
    (upsert_feed a url title items).db.feeds =
      a.db.feeds.set j { f with title := title, items := items } ∧
    (upsert_feed a url title items).db.feeds.length = a.db.feeds.length ∧
    ∀ k, k ≠ j → (upsert_feed a url title items).db.feeds[k]? = a.db.feeds[k]? := by
  have hrepl := upsertFeeds_replace a.db.feeds url title items j f hj hurl hmin
  have hdb : (upsert_feed a url title items).db.feeds =
      a.db.feeds.set j { f with title := title, items := items } := by
    rw [upsert_feed_db]
    exact hrepl
  refine ⟨hdb, ?_, ?_⟩
  · rw [hdb]
    simp
  · intro k hk
    rw [hdb]
    exact List.getElem?_set_ne (fun h => hk h.symm)

theorem itemSelOk_delete_empty (a : App) (idx : Nat) (h1 : a.feedSel = some idx)
    (h2 : idx ≠ 0) (h3 : idx - 1 < a.db.feeds.length) (h4 : a.db.feeds.length = 1) :
    itemSelOk (delete_selected a) = true := by
  have hget := List.getElem?_eq_getElem h3
  have he : a.db.feeds.eraseIdx (idx - 1) = [] := by
    have hl := List.length_eraseIdx a.db.feeds (idx - 1)
    rw [if_pos h3] at hl
    rw [← List.length_eq_zero]
    omega
  have hie : (a.db.feeds.eraseIdx (idx - 1)).isEmpty = true := by
    simp [List.isEmpty_iff, he]
  simp [delete_selected, h1, h2, hget, hie, save_db, itemSelOk,
    current_items_count, selected_feed, he]

/-- C2 counterexample: deleting the selected first feed of a two-feed
collection while its second entry is selected leaves the item selection at
index 1 although the new item view has length 1, so the selection invariant
fails right after a delete. -/
theorem C2_counterexample : itemSelOk (delete_selected appDeleteCase) = false := by
  decide

/-- C2 (amended): after a feed-pane selection move and after an upsert (the
mutation step of add and refresh) the item selection is none exactly when
the item view is empty and otherwise a valid index below the view length;
after a delete the same holds whenever the deletion empties the collection,
while a delete that leaves feeds behind keeps the previous item selection
unchanged even if it is out of range. -/
theorem C2_selection_after_ops (a : App) (delta : Int) (url : String)
    (title : Option String) (items : List FeedItem) :
    itemSelOk (move_feed a delta) = true ∧
    itemSelOk (upsert_feed a url title items) = true ∧
    (∀ idx, a.feedSel = some idx → idx ≠ 0 → idx - 1 < a.db.feeds.length →
      a.db.feeds.length = 1 → itemSelOk (delete_selected a) = true) := by
  refine ⟨?_, itemSelOk_upsert a url title items, ?_⟩
  · unfold move_feed
    exact itemSelOk_ensure_count _
  · intro idx h1 h2 h3 h4
    exact itemSelOk_delete_empty a idx h1 h2 h3 h4

/-- C1: with the All-feeds pseudo-entry selected, the current item view is a
permutation of the flattening of every feed's entries tagged with the source
feed title, it is ordered by parsed published timestamp descending with
every entry lacking a valid timestamp after every entry with one, and any
two entries with equal keys (both valid and equal, or both missing) keep
their relative order from the flattened sequence: a stable descending sort. -/
theorem C1_all_feeds_view (parsePub : String → Option Int) (a : App)
    (h : a.feedSel = some 0) :
    (current_items parsePub a).Perm (flattenTagged parsePub a.db) ∧
    (current_items parsePub a).Pairwise beforeOk ∧
    (∀ x y : DisplayItem, x.published_key = y.published_key →
      [x, y].Sublist (flattenTagged parsePub a.db) →
      [x, y].Sublist (current_items parsePub a)) := by
  have hsel : selected_feed a = none := by simp [selected_feed, h]
  have hcur : current_items parsePub a = (flattenTagged parsePub a.db).mergeSort sortLe := by
    unfold current_items
    rw [hsel]
  refine ⟨?_, ?_, ?_⟩
  · rw [hcur]
    exact List.mergeSort_perm _ _
  · rw [hcur]
    exact List.Pairwise.imp (fun hab => (sortLe_iff _ _).mp hab)
      (List.sorted_mergeSort (fun u v w => sortLe_trans u v w)
        (fun u v => sortLe_total u v) _)
  · intro x y hk hsub
    rw [hcur]
    refine List.pair_sublist_mergeSort (fun u v w => sortLe_trans u v w)
      (fun u v => sortLe_total u v) ?_ hsub
    rw [sortLe_iff]
    exact beforeOk_of_eq_key x y hk

/-- C6: when the external fetch fails during an Add submit or a Refresh, the
collection is unchanged, no persistence call is made, the error is surfaced
only as status text, and the session continues (the quit flag is false). -/
theorem C6_fetch_failure_nonfatal (fetch : String → FetchResult) (a : App)
    (e : String) :
    (a.mode = Mode.AddUrl → (trim a.input).isEmpty = false →
      fetch (trim a.input) = Except.error e →
      (handle_key fetch a { code := KeyCode.enter, ctrl := false }).1.db = a.db ∧
      (handle_key fetch a { code := KeyCode.enter, ctrl := false }).1.saveLog = a.saveLog ∧
      (handle_key fetch a { code := KeyCode.enter, ctrl := false }).1.status = "Error: " ++ e ∧
      (handle_key fetch a { code := KeyCode.enter, ctrl := false }).2 = false) ∧
    (∀ feed, a.mode = Mode.Normal → selected_feed a = some feed →
      fetch feed.url = Except.error e →
      (handle_key fetch a { code := KeyCode.char 'r', ctrl := false }).1.db = a.db ∧
      (handle_key fetch a { code := KeyCode.char 'r', ctrl := false }).1.saveLog = a.saveLog ∧
      (handle_key fetch a { code := KeyCode.char 'r', ctrl := false }).1.status = "Error: " ++ e ∧
      (handle_key fetch a { code := KeyCode.char 'r', ctrl := false }).2 = false) := by
  constructor
  · intro hm hne hf
    simp [handle_key, hm, handle_add_url, hne, hf]
  · intro feed hm hsel hf
    have hr : handle_key fetch a { code := KeyCode.char 'r', ctrl := false } =
        (do_refresh fetch a, false) := by
      simp [handle_key, hm, handle_normal]
    rw [hr]
    simp [do_refresh, hsel, hf]

/-- C7 counterexample: a collection with two feeds sharing one url is a
possible result of load (load performs no uniqueness validation), is
reachable from itself by the empty sequence of edits, and violates
url-uniqueness, so the claim quantifying over loaded collections fails. -/
theorem C7_counterexample :
    ¬ (∀ db0 db : FeedDb, (db0 = ⟨[]⟩ ∨ Loadable db0) → Reachable db0 db →
        urlUnique db) := by
  intro h
  have h2 := h dupDb dupDb (Or.inr trivial) Relation.ReflTransGen.refl
  simp [urlUnique, dupDb] at h2

/-- C7 (amended): every collection reachable through any sequence of upsert
and remove operations from a collection that itself satisfies
url-uniqueness (in particular from the empty collection) contains at most
one feed per distinct url. -/
theorem C7_unique_preserved (db0 db : FeedDb) (h0 : urlUnique db0)
    (h : Reachable db0 db) : urlUnique db := by
  induction h with
  | refl => exact h0
  | tail hsteps hstep ih =>
    cases hstep with
    | upsert url title items => exact urlUnique_upsert _ url title items ih
    | remove i => exact urlUnique_remove _ i ih

/-- Witness for C1 at a concrete session holding dated, undated and
unparseable entries. -/
theorem C1_witness :
    appAllFeeds.feedSel = some 0 ∧
    (current_items parseFix appAllFeeds).Perm (flattenTagged parseFix appAllFeeds.db) := by
  exact ⟨rfl, (C1_all_feeds_view parseFix appAllFeeds rfl).1⟩

/-- Witness for C2 at concrete sessions: a feed move on the two-feed
collection and a delete emptying a one-feed collection. -/
theorem C2_witness :
    itemSelOk (move_feed appTwoFeeds 3) = true ∧
    appOneFeed.feedSel = some 1 ∧
    itemSelOk (delete_selected appOneFeed) = true := by
  refine ⟨(C2_selection_after_ops appTwoFeeds 3 ("") none []).1, rfl, ?_⟩
  exact (C2_selection_after_ops appOneFeed 0 ("") none []).2.2 1 rfl (by decide)
    (by decide) (by decide)

/-- Witness for C3: deleting the only feed while it is selected. -/
theorem C3_witness :
    appOneFeed.feedSel = some 1 ∧
    (delete_selected appOneFeed).db.feeds = appOneFeed.db.feeds.eraseIdx 0 ∧
    (delete_selected appOneFeed).feedSel = some 0 := by
  refine ⟨rfl, ?_, ?_⟩
  · exact (C3_delete_selection appOneFeed 1 rfl (by decide) (by decide)).1
  · exact ((C3_delete_selection appOneFeed 1 rfl (by decide) (by decide)).2.1 (by decide)).1

/-- Witness for C5: a page jump on the feed pane of the two-feed session. -/
theorem C5_witness :
    appTwoFeeds.focus = Focus.Feeds ∧
    (∃ n, (move_selection appTwoFeeds PAGE_JUMP).feedSel = some n ∧
      n ≤ appTwoFeeds.db.feeds.length) := by
  refine ⟨rfl, ?_⟩
  obtain ⟨n, h1, h2, _⟩ := C5_feed_move_bounds appTwoFeeds PAGE_JUMP rfl
  exact ⟨n, h1, h2⟩

/-- Witness for C6: a failing fetch on an Add submit and on a Refresh. -/
theorem C6_witness :
    (trim appAdding.input).isEmpty = false ∧
    (handle_key fetchFail appAdding { code := KeyCode.enter, ctrl := false }).1.db =
      appAdding.db ∧
    selected_feed appFeedSel = some feedA ∧
    (handle_key fetchFail appFeedSel { code := KeyCode.char 'r', ctrl := false }).1.saveLog =
      appFeedSel.saveLog := by
  refine ⟨by decide, ?_, by decide, ?_⟩
  · exact ((C6_fetch_failure_nonfatal fetchFail appAdding ("boom")).1 rfl (by decide) rfl).1
  · exact ((C6_fetch_failure_nonfatal fetchFail appFeedSel ("boom")).2 feedA rfl
      (by decide) rfl).2.1

/-- Witness for C7: the collection reached by two upserts from the empty
collection keeps url-uniqueness. -/
theorem C7_witness : urlUnique (⟨[]⟩ : FeedDb) ∧ urlUnique dbAB := by
  constructor
  · simp [urlUnique]
  · exact C7_unique_preserved ⟨[]⟩ dbAB (by simp [urlUnique])
      (Relation.ReflTransGen.head (EditStep.upsert ⟨[]⟩ ("http://a") none [])
        (Relation.ReflTransGen.head
          (EditStep.upsert (upsertDb ⟨[]⟩ ("http://a") none []) ("http://b") none [])
          Relation.ReflTransGen.refl))

/-- Witness for C9: refreshing the first feed of the two-feed session in
place. -/
theorem C9_witness :
    appTwoFeeds.db.feeds[0]? = some feedA ∧
    (upsert_feed appTwoFeeds ("http://a") (some ("A2")) []).db.feeds =
      appTwoFeeds.db.feeds.set 0 { feedA with title := some ("A2"), items := [] } := by
  refine ⟨by decide, ?_⟩
  exact (C9_upsert_existing appTwoFeeds ("http://a") (some ("A2")) [] 0 feedA
    (by decide) (by decide) (fun k hk g hg => absurd hk (Nat.not_lt_zero k))).1

/-- Witness for C10: a unit move on the item pane with no selection. -/
theorem C10_witness :
    appItems.focus = Focus.Items ∧
    current_items_count appItems ≠ 0 ∧
    (move_selection appItems 1).itemSel =
      some (clamp_index ((0 : Int) + 1) (current_items_count appItems)) := by
  refine ⟨rfl, by decide, ?_⟩
  exact (C10_item_move_from_none appItems 1 rfl (by decide) rfl).1
